import Mathlib

/-!
Verification of the Lorenz (1963) notebook (systemLorenz1963.ipynb).

The notebook integrates the three-equation Lorenz system with a classic
fixed-step RK4 scheme, then extracts the relative maxima of the Z series.
We embed the numerical code shallowly over the rationals: every arithmetic
operation of the Python source is mirrored exactly, with real (float)
arithmetic idealised as exact field arithmetic.

A state is the triple (x, y, z); parameters are the triple (sigma, r, b),
matching the list [sigma, smallr, smallb] passed in the notebook.
-/

namespace Lorenz1963

/-- A state (x, y, z) of the system, one entry of the trajectory. -/
abbrev State : Type := ℚ × ℚ × ℚ

/-- The parameter triple (sigma, r, b), as the list [sigma, smallr, smallb]
passed by the notebook, read positionally by systemLorenz1963. -/
abbrev Params : Type := ℚ × ℚ × ℚ

/-- Eqs. (25,26,27) of Lorenz (1963), embedded from the function
systemLorenz1963 of the notebook:
  dxdt = -1*sigmavalue*xx+sigmavalue*yy
  dydt = (rvalue-zz)*xx-yy
  dzdt = xx*yy-bvalue*zz -/
def systemLorenz1963 (xx yy zz : ℚ) (params : Params) : ℚ × ℚ × ℚ :=
  let sigmavalue := params.1
  let rvalue := params.2.1
  let bvalue := params.2.2
  (-1 * sigmavalue * xx + sigmavalue * yy,
   (rvalue - zz) * xx - yy,
   xx * yy - bvalue * zz)

/-- Runge-Kutta 4 method for a function of x, y, z independent of time,
embedded from the function rk4_xyz of the notebook. Generic over the
derivative function and the parameter object, as in the source. -/
def rk4_xyz {α : Type} (xx yy zz step : ℚ)
    (func : ℚ → ℚ → ℚ → α → ℚ × ℚ × ℚ) (params : α) : ℚ × ℚ × ℚ :=
  let k1 := func xx yy zz params
  let k2 := func (xx + step * k1.1 / 2) (yy + step * k1.2.1 / 2)
      (zz + step * k1.2.2 / 2) params
  let k3 := func (xx + step * k2.1 / 2) (yy + step * k2.2.1 / 2)
      (zz + step * k2.2.2 / 2) params
  let k4 := func (xx + step * k3.1) (yy + step * k3.2.1)
      (zz + step * k3.2.2) params
  (1 / 6 * (k1.1 + 2 * k2.1 + 2 * k3.1 + k4.1) * step,
   1 / 6 * (k1.2.1 + 2 * k2.2.1 + 2 * k3.2.1 + k4.2.1) * step,
   1 / 6 * (k1.2.2 + 2 * k2.2.2 + 2 * k3.2.2 + k4.2.2) * step)

/-- One iteration of the time-marching loop: from the state at index ii,
compute the RK4 increments (stepx, stepy, stepz) with the Lorenz field and
add them componentwise, producing the state at index ii+1. -/
def stepLorenz (deltat : ℚ) (params : Params) (s : State) : State :=
  let inc := rk4_xyz s.1 s.2.1 s.2.2 deltat systemLorenz1963 params
  (s.1 + inc.1, s.2.1 + inc.2.1, s.2.2 + inc.2.2)

/-- The list of the first n states produced by iterating f from s:
s, f s, f (f s), and so on.  This models the pre-allocated arrays of
length ntot that the loop fills left to right. -/
def marchList (f : State → State) : ℕ → State → List State
  | 0, _ => []
  | n + 1, s => s :: marchList f n (f s)

/-- The full trajectory of the notebook: entry 0 is the initial state
(initx, inity, initz) and each following entry adds the RK4 increment of
the previous one, for ntot entries in total. -/
def trajectory (deltat : ℚ) (ntot : ℕ) (init : State) (params : Params) :
    List State :=
  marchList (stepLorenz deltat params) ntot init

/-- The run as a whole, with its failure mode: the notebook allocates
arrays of length ntot and then assigns index 0, so a step count of 0
raises an index error before any integration step; otherwise the loop
always completes and yields the trajectory.  No validation of the step
size takes place anywhere. -/
def simulate (deltat : ℚ) (ntot : ℕ) (init : State) (params : Params) :
    Option (List State) :=
  if ntot = 0 then none else some (trajectory deltat ntot init params)

/-- Relative maxima in Z, embedded from the list comprehension
relMaxZ = [zvalues[ii] for ii in range(1,ntot-1)
           if(zvalues[ii]>zvalues[ii-1] and zvalues[ii]>zvalues[ii+1])]
with ntot the length of zvalues. -/
def relMaxZ (zvalues : List ℚ) : List ℚ :=
  ((List.range' 1 (zvalues.length - 2)).filter (fun ii =>
      decide (zvalues.getD ii 0 > zvalues.getD (ii - 1) 0 ∧
        zvalues.getD ii 0 > zvalues.getD (ii + 1) 0))).map
    (fun ii => zvalues.getD ii 0)

/-- The classic RK4 increment exactly as the specification writes it:
  k1 = f(S), k2 = f(S + (h/2) k1), k3 = f(S + (h/2) k2), k4 = f(S + h k3),
  increment = (h/6) (k1 + 2 k2 + 2 k3 + k4), componentwise.
This definition follows the wording of the spec, to be compared with
rk4_xyz, which is embedded from the source. -/
def rk4Classic {α : Type} (xx yy zz h : ℚ)
    (func : ℚ → ℚ → ℚ → α → ℚ × ℚ × ℚ) (params : α) : ℚ × ℚ × ℚ :=
  let k1 := func xx yy zz params
  let k2 := func (xx + h / 2 * k1.1) (yy + h / 2 * k1.2.1)
      (zz + h / 2 * k1.2.2) params
  let k3 := func (xx + h / 2 * k2.1) (yy + h / 2 * k2.2.1)
      (zz + h / 2 * k2.2.2) params
  let k4 := func (xx + h * k3.1) (yy + h * k3.2.1) (zz + h * k3.2.2) params
  (h / 6 * (k1.1 + 2 * k2.1 + 2 * k3.1 + k4.1),
   h / 6 * (k1.2.1 + 2 * k2.2.1 + 2 * k3.2.1 + k4.2.1),
   h / 6 * (k1.2.2 + 2 * k2.2.2 + 2 * k3.2.2 + k4.2.2))

/-- The mirror symmetry of the Lorenz system: negate x and y, keep z. -/
def mirrorState (s : State) : State := (-s.1, -s.2.1, s.2.2)

/-- The maxima extraction as the specification words it: the values V[i]
for every interior index i with 1 <= i <= N - 2 such that V[i] is
strictly greater than both neighbours, in ascending index order.  This
definition follows the wording of the spec, to be compared with relMaxZ,
which is embedded from the source. -/
def specLocalMaxima (V : List ℚ) : List ℚ :=
  ((List.range V.length).filter (fun i =>
      decide (1 ≤ i ∧ i ≤ V.length - 2 ∧
        (V.getD i 0 > V.getD (i - 1) 0 ∧ V.getD i 0 > V.getD (i + 1) 0)))).map
    (fun i => V.getD i 0)

/-- C1: for every state, every step size, every parameter object and every
3-dimensional time-invariant derivative function, rk4_xyz returns exactly
the increment of the classic RK4 scheme, componentwise. -/
theorem rk4_xyz_eq_rk4Classic {α : Type} (xx yy zz step : ℚ)
    (func : ℚ → ℚ → ℚ → α → ℚ × ℚ × ℚ) (params : α) :
    rk4_xyz xx yy zz step func params = rk4Classic xx yy zz step func params := by
  have harg : ∀ a b : ℚ, a + step * b / 2 = a + step / 2 * b := by
    intro a b; ring
  simp only [rk4_xyz, rk4Classic, harg, Prod.mk.injEq]
  refine ⟨by ring, by ring, by ring⟩

/-- C2, counterexample: the claim asserts that the vector field at state
(0, 1, 0) with parameters (10, 28, 8/3) yields (10, 0, 0); in fact the
second component is (28 - 0) * 0 - 1 = -1, so the field yields (10, -1, 0). -/
theorem systemLorenz1963_at_0_1_0_ne : systemLorenz1963 0 1 0 (10, 28, 8 / 3) ≠ (10, 0, 0) := by
  norm_num [systemLorenz1963, Prod.ext_iff]

/-- C2, amended: for every state and every parameter triple, the vector
field returns exactly (-sigma x + sigma y, (r - z) x - y, x y - b z); it is
a pure function of its arguments, and at state (0, 1, 0) with parameters
(10, 28, 8/3) it yields (10, -1, 0). -/
theorem systemLorenz1963_closed_form :
    (∀ (xx yy zz : ℚ) (params : Params),
      systemLorenz1963 xx yy zz params =
        (-(params.1 * xx) + params.1 * yy,
         (params.2.1 - zz) * xx - yy,
         xx * yy - params.2.2 * zz)) ∧
    systemLorenz1963 0 1 0 (10, 28, 8 / 3) = (10, -1, 0) := by
  constructor
  · intro xx yy zz params
    simp only [systemLorenz1963, Prod.mk.injEq]
    norm_num
  · norm_num [systemLorenz1963, Prod.ext_iff]

/-- C7: the RK4 stepper called with step size 0 returns the zero
increment, for every state, every parameter object and every derivative
function. -/
theorem rk4_xyz_step_zero {α : Type} (xx yy zz : ℚ)
    (func : ℚ → ℚ → ℚ → α → ℚ × ℚ × ℚ) (params : α) :
    rk4_xyz xx yy zz 0 func params = (0, 0, 0) := by
  simp only [rk4_xyz, Prod.mk.injEq]
  refine ⟨by ring, by ring, by ring⟩

/-- The trajectory list produced by iteration has exactly n entries. -/
theorem marchList_length (f : State → State) (n : ℕ) (s : State) :
    (marchList f n s).length = n := by
  induction n generalizing s with
  | zero => rfl
  | succ n ih => simp [marchList, ih]

/-- Entry i of the iterated trajectory is the i-fold iterate of the step
function applied to the start state. -/
theorem marchList_getD (f : State → State) (n : ℕ) (s : State) (i : ℕ)
    (hi : i < n) : (marchList f n s).getD i (0, 0, 0) = f^[i] s := by
  induction n generalizing s i with
  | zero => omega
  | succ n ih =>
    cases i with
    | zero => rfl
    | succ i =>
      have : (marchList f (n + 1) s).getD (i + 1) (0, 0, 0) =
          (marchList f n (f s)).getD i (0, 0, 0) := rfl
      rw [this, ih (f s) i (by omega), Function.iterate_succ_apply]

/-- C3: for every configuration with step count at least 1, the completed
trajectory has length exactly ntot, entry 0 is the configured initial
state, and every later entry up to index ntot - 1 is the previous entry
plus the RK4 increment of the Lorenz field computed from the previous
entry. -/
theorem trajectory_recurrence (deltat : ℚ) (ntot : ℕ) (init : State)
    (params : Params) (i : ℕ) (hN : 1 ≤ ntot) (hi1 : 1 ≤ i)
    (hi2 : i ≤ ntot - 1) :
    (trajectory deltat ntot init params).length = ntot ∧
    (trajectory deltat ntot init params).getD 0 (0, 0, 0) = init ∧
    (trajectory deltat ntot init params).getD i (0, 0, 0) =
      stepLorenz deltat params
        ((trajectory deltat ntot init params).getD (i - 1) (0, 0, 0)) := by
  refine ⟨marchList_length _ _ _, ?_, ?_⟩
  · have h0 := marchList_getD (stepLorenz deltat params) ntot init 0 (by omega)
    simpa [trajectory] using h0
  · have e1 := marchList_getD (stepLorenz deltat params) ntot init i (by omega)
    have e2 := marchList_getD (stepLorenz deltat params) ntot init (i - 1)
      (by omega)
    have hsplit : i = (i - 1) + 1 := by omega
    simp only [trajectory]
    rw [e1, e2]
    nth_rewrite 1 [hsplit]
    rw [Function.iterate_succ_apply']

/-- Witness for C3 at the concrete configuration h = 1, N = 3,
initial state (0, 1, 0), parameters (10, 28, 8/3), index i = 1. -/
theorem trajectory_recurrence_witness :
    (1 : ℕ) ≤ 3 ∧ (1 : ℕ) ≤ 1 ∧ (1 : ℕ) ≤ 3 - 1 ∧
    ((trajectory 1 3 (0, 1, 0) (10, 28, 8 / 3)).length = 3 ∧
     (trajectory 1 3 (0, 1, 0) (10, 28, 8 / 3)).getD 0 (0, 0, 0) = (0, 1, 0) ∧
     (trajectory 1 3 (0, 1, 0) (10, 28, 8 / 3)).getD 1 (0, 0, 0) =
       stepLorenz 1 (10, 28, 8 / 3)
         ((trajectory 1 3 (0, 1, 0) (10, 28, 8 / 3)).getD (1 - 1) (0, 0, 0))) :=
  ⟨by norm_num, by norm_num, by norm_num,
   trajectory_recurrence 1 3 (0, 1, 0) (10, 28, 8 / 3) 1 (by norm_num)
     (by norm_num) (by norm_num)⟩

/-- C5, counterexample: the notebook performs no validation of the step
size: at step size -1/100 (which is not positive) with step count 3 the
run succeeds and produces a trajectory of length 3, so the simulator does
not fail for this invalid configuration. -/
theorem simulate_accepts_nonpositive_step :
    (simulate (-1 / 100) 3 (0, 1 / 10, 0) (10, 28, 8 / 3)).isSome = true ∧
    Option.map List.length (simulate (-1 / 100) 3 (0, 1 / 10, 0) (10, 28, 8 / 3)) =
      some 3 := by
  constructor <;> rfl

/-- C5, amended: the notebook validates nothing at configuration time.
For every step count of at least 1 and every step size, including sizes
that are zero or negative, the run completes and produces a trajectory of
length ntot; only a step count of 0 makes the run fail, with an index
error while writing the initial state, before any integration step, and
then no trajectory is produced. -/
theorem simulate_no_validation (deltat : ℚ) (ntot : ℕ) (init : State)
    (params : Params) (hN : 1 ≤ ntot) :
    simulate deltat ntot init params =
      some (trajectory deltat ntot init params) ∧
    (trajectory deltat ntot init params).length = ntot ∧
    simulate deltat 0 init params = none := by
  refine ⟨?_, marchList_length _ _ _, rfl⟩
  have hne : ntot ≠ 0 := by omega
  simp [simulate, hne]

/-- Witness for C5 at step size -1/100 and step count 3. -/
theorem simulate_no_validation_witness :
    (1 : ℕ) ≤ 3 ∧
    (simulate (-1 / 100) 3 (0, 1 / 10, 0) (10, 28, 8 / 3) =
       some (trajectory (-1 / 100) 3 (0, 1 / 10, 0) (10, 28, 8 / 3)) ∧
     (trajectory (-1 / 100) 3 (0, 1 / 10, 0) (10, 28, 8 / 3)).length = 3 ∧
     simulate (-1 / 100) 0 (0, 1 / 10, 0) (10, 28, 8 / 3) = none) :=
  ⟨by norm_num,
   simulate_no_validation (-1 / 100) 3 (0, 1 / 10, 0) (10, 28, 8 / 3)
     (by norm_num)⟩

/-- C6: the computation is a pure function of the configuration: two runs
whose step sizes, step counts, initial states and parameters agree produce
identical trajectories, entry for entry. -/
theorem trajectory_deterministic (d1 d2 : ℚ) (n1 n2 : ℕ) (s1 s2 : State)
    (p1 p2 : Params) (hd : d1 = d2) (hn : n1 = n2) (hs : s1 = s2)
    (hp : p1 = p2) :
    trajectory d1 n1 s1 p1 = trajectory d2 n2 s2 p2 := by
  rw [hd, hn, hs, hp]

/-- Witness for C6 at the reference configuration, repeated twice. -/
theorem trajectory_deterministic_witness :
    trajectory (1 / 100) 5 (0, 1 / 10, 0) (10, 28, 8 / 3) =
      trajectory (1 / 100) 5 (0, 1 / 10, 0) (10, 28, 8 / 3) :=
  trajectory_deterministic (1 / 100) (1 / 100) 5 5 (0, 1 / 10, 0)
    (0, 1 / 10, 0) (10, 28, 8 / 3) (10, 28, 8 / 3) rfl rfl rfl rfl

/-- C8: with step count 1 the trajectory is exactly the one-entry list
holding the initial state, and the relative maxima of its Z series form
the empty list, for every step size, initial state and parameters. -/
theorem trajectory_single_entry (deltat : ℚ) (init : State) (params : Params) :
    trajectory deltat 1 init params = [init] ∧
    relMaxZ ((trajectory deltat 1 init params).map (fun s => s.2.2)) = [] := by
  constructor <;> rfl

/-- The Lorenz field is equivariant under the mirror symmetry. -/
theorem systemLorenz1963_mirror (xx yy zz : ℚ) (params : Params) :
    systemLorenz1963 (-xx) (-yy) zz params =
      mirrorState (systemLorenz1963 xx yy zz params) := by
  simp only [systemLorenz1963, mirrorState, Prod.mk.injEq]
  refine ⟨by ring, by ring, by ring⟩

/-- The RK4 stepper is equivariant under the mirror symmetry whenever the
derivative function is. -/
theorem rk4_xyz_mirror {α : Type} (xx yy zz step : ℚ)
    (func : ℚ → ℚ → ℚ → α → ℚ × ℚ × ℚ) (params : α)
    (hfunc : ∀ x y z, func (-x) (-y) z params =
      mirrorState (func x y z params)) :
    rk4_xyz (-xx) (-yy) zz step func params =
      mirrorState (rk4_xyz xx yy zz step func params) := by
  have harg2 : ∀ a b : ℚ, -a + step * -b / 2 = -(a + step * b / 2) := by
    intro a b; ring
  have harg4 : ∀ a b : ℚ, -a + step * -b = -(a + step * b) := by
    intro a b; ring
  simp only [rk4_xyz, mirrorState, hfunc, harg2, harg4, Prod.mk.injEq]
  refine ⟨by ring_nf, by ring_nf, by ring_nf⟩

/-- One Lorenz RK4 update commutes with the mirror symmetry. -/
theorem stepLorenz_mirror (deltat : ℚ) (params : Params) (s : State) :
    stepLorenz deltat params (mirrorState s) =
      mirrorState (stepLorenz deltat params s) := by
  obtain ⟨x, y, z⟩ := s
  simp only [stepLorenz, mirrorState]
  rw [rk4_xyz_mirror x y z deltat systemLorenz1963 params
    (fun a b c => systemLorenz1963_mirror a b c params)]
  simp only [mirrorState, Prod.mk.injEq]
  refine ⟨by ring, by ring, trivial⟩

/-- Iterating a step function that commutes with a symmetry commutes with
mapping the symmetry over the produced list. -/
theorem marchList_map_comm (f g : State → State)
    (hc : ∀ s, f (g s) = g (f s)) (n : ℕ) (s : State) :
    marchList f n (g s) = (marchList f n s).map g := by
  induction n generalizing s with
  | zero => rfl
  | succ n ih =>
    simp only [marchList, List.map_cons]
    rw [hc, ih (f s)]

/-- C10: the trajectory started from the mirrored initial state is, entry
for entry, the mirror of the trajectory started from the original initial
state, for every step size, step count and parameters. -/
theorem trajectory_mirror (deltat : ℚ) (ntot : ℕ) (init : State)
    (params : Params) :
    trajectory deltat ntot (mirrorState init) params =
      (trajectory deltat ntot init params).map mirrorState :=
  marchList_map_comm (stepLorenz deltat params) mirrorState
    (fun s => stepLorenz_mirror deltat params s) ntot init

/-- Prepending helper: the integer interval starting at 1 grows by one
element at its right end. -/
theorem range'_one_concat (m : ℕ) :
    List.range' 1 (m + 1) = List.range' 1 m ++ [m + 1] := by
  have h : 1 + 1 * m = m + 1 := by omega
  rw [List.range'_concat, h]

/-- Keeping the indices of range n that are at least 1 yields the
interval from 1 to n - 1. -/
theorem range_filter_one_le (n : ℕ) :
    (List.range n).filter (fun i => decide (1 ≤ i)) = List.range' 1 (n - 1) := by
  induction n with
  | zero => rfl
  | succ m ih =>
    cases m with
    | zero => rfl
    | succ l =>
      rw [List.range_succ, List.filter_append, ih]
      have hd : (List.filter (fun i => decide (1 ≤ i)) [l + 1]) = [l + 1] := by
        simp
      rw [hd, show l + 1 - 1 = l from by omega,
        show l + 1 + 1 - 1 = l + 1 from by omega, ← range'_one_concat]

/-- Keeping the indices of the interval from 1 to m that are at most k
truncates the interval at k. -/
theorem range'_filter_le (k m : ℕ) :
    (List.range' 1 m).filter (fun i => decide (i ≤ k)) =
      List.range' 1 (min m k) := by
  induction m with
  | zero => simp
  | succ m ih =>
    rw [range'_one_concat, List.filter_append, ih]
    by_cases hk : m + 1 ≤ k
    · have hd : (List.filter (fun i => decide (i ≤ k)) [m + 1]) = [m + 1] := by
        simp [hk]
      rw [hd, show min m k = m from by omega,
        show min (m + 1) k = m + 1 from by omega, range'_one_concat]
    · have hd : (List.filter (fun i => decide (i ≤ k)) [m + 1]) = [] := by
        simp; omega
      rw [hd, show min (m + 1) k = min m k from by omega]
      simp

/-- The comprehension over range(1, ntot-1) selects exactly the interior
indices with a strict local maximum, as the specification words it. -/
theorem relMaxZ_eq_specLocalMaxima (V : List ℚ) :
    relMaxZ V = specLocalMaxima V := by
  have hpt : ∀ i ∈ List.range V.length,
      (decide (1 ≤ i ∧ i ≤ V.length - 2 ∧
        (V.getD i 0 > V.getD (i - 1) 0 ∧ V.getD i 0 > V.getD (i + 1) 0)))
      = ((decide (V.getD i 0 > V.getD (i - 1) 0 ∧ V.getD i 0 > V.getD (i + 1) 0))
          && ((decide (i ≤ V.length - 2)) && (decide (1 ≤ i)))) := by
    intro i _
    simp only [← Bool.decide_and]
    rw [decide_eq_decide]
    tauto
  unfold relMaxZ specLocalMaxima
  rw [List.filter_congr hpt]
  rw [← List.filter_filter, ← List.filter_filter]
  rw [range_filter_one_le, range'_filter_le]
  rw [show min (V.length - 1) (V.length - 2) = V.length - 2 from by omega]

/-- C4: for every rational sequence V, the maxima extraction returns, in
ascending index order, exactly the values at interior indices that are
strictly greater than both neighbours; sequences with fewer than three
elements, including the empty one, give the empty result, and the
concrete examples of the spec hold: [1,3,2,5,4] gives [3,5], [1,2,3]
gives [], [5,1,5] gives [], [] gives [] and [7] gives []. -/
theorem relMaxZ_spec :
    (∀ V : List ℚ, relMaxZ V = specLocalMaxima V) ∧
    (∀ V : List ℚ, V.length < 3 → relMaxZ V = []) ∧
    relMaxZ [1, 3, 2, 5, 4] = [3, 5] ∧ relMaxZ [1, 2, 3] = [] ∧
    relMaxZ [5, 1, 5] = [] ∧ relMaxZ [] = [] ∧ relMaxZ [7] = [] := by
  refine ⟨relMaxZ_eq_specLocalMaxima, ?_, rfl, rfl, rfl, rfl, rfl⟩
  intro V h
  unfold relMaxZ
  rw [show V.length - 2 = 0 from by omega]
  rfl

/-- Witness for C4 at the concrete two-element input [9, 9], which has
fewer than three elements and so yields the empty result. -/
theorem relMaxZ_spec_witness : relMaxZ [9, 9] = [] :=
  relMaxZ_spec.2.1 [9, 9] (by norm_num)

end Lorenz1963
